import Mathlib

/-!
Verification development for a YouTube transcript search server
(`server.py`).  The Python source is shallowly embedded: transcript
segments are records of a rational start time and a text string, Python
float arithmetic on timestamps is modelled by rational arithmetic,
Python string operations (`in`, `lower`, `%`, `//`, `int`, f-string
zero padding) are modelled by executable Lean functions, and exceptions
are modelled by `Except String`.  External collaborators (the network
calls in `requests.get` and `YouTubeTranscriptApi`) are passed in as
explicit parameters describing their outcome.
-/

/-- Python `needle in haystack` helper: is `needle` a prefix of `haystack`
(on the character lists)? -/
def prefixCheck : List Char → List Char → Bool
  | [], _ => true
  | _ :: _, [] => false
  | a :: as, b :: bs => a == b && prefixCheck as bs

/-- Occurrence of `needle` anywhere in `haystack` (character lists). -/
def infixCheck (needle : List Char) : List Char → Bool
  | [] => needle.isEmpty
  | c :: rest => prefixCheck needle (c :: rest) || infixCheck needle rest

/-- Embeds the Python substring test `needle in haystack`. -/
def pyContains (haystack needle : String) : Bool :=
  infixCheck needle.data haystack.data

/-- Embeds `str.lower()` (ASCII case folding, the range the transcripts
and queries of this program use), as a character-list map. -/
def String.strLower (s : String) : String :=
  String.mk (s.data.map Char.toLower)

/-- Python `int(x)` on a float/rational: truncation toward zero. -/
def pyInt (a : ℚ) : ℤ :=
  if 0 ≤ a then ⌊a⌋ else -⌊-a⌋

/-- Python float floor division `a // b` (result is again a float). -/
def pyFloorDiv (a b : ℚ) : ℚ :=
  ((⌊a / b⌋ : ℤ) : ℚ)

/-- Python float modulo `a % b` (sign of the divisor): `a - b * (a // b)`. -/
def pyMod (a b : ℚ) : ℚ :=
  a - b * ((⌊a / b⌋ : ℤ) : ℚ)

/-- Embeds the Python f-string field `{n:02d}`: decimal rendering,
left-padded with a zero to at least two characters. -/
def pad2 (n : ℤ) : String :=
  if 0 ≤ n ∧ n < 10 then "0" ++ toString n else toString n

/-- Embeds `format_timestamp` from `server.py`:
`hours = int(seconds // 3600)`, `minutes = int((seconds % 3600) // 60)`,
`seconds = int(seconds % 60)`, rendered `HH:MM:SS` when `hours > 0`
and `MM:SS` otherwise. -/
def format_timestamp (seconds : ℚ) : String :=
  let hours : ℤ := pyInt (pyFloorDiv seconds 3600)
  let minutes : ℤ := pyInt (pyFloorDiv (pyMod seconds 3600) 60)
  let secs : ℤ := pyInt (pyMod seconds 60)
  if 0 < hours then
    pad2 hours ++ ":" ++ pad2 minutes ++ ":" ++ pad2 secs
  else
    pad2 minutes ++ ":" ++ pad2 secs

/-- One transcript entry: `{"start": ..., "text": ...}` (the unused
`duration` field is omitted). -/
structure Segment where
  start : ℚ
  text : String
deriving DecidableEq, Repr, Inhabited

/-- The `context_before` / `context_after` dictionaries built by
`get_query_usages_with_context`. -/
structure ContextWindow where
  entries : List Segment
  available_seconds : ℚ
deriving DecidableEq, Repr, Inhabited

/-- One element of the list returned by `get_query_usages_with_context`. -/
structure MatchRecord where
  match_entry : Segment
  is_cross_segment : Bool
  next_segment : Option Segment
  context_before : ContextWindow
  context_after : ContextWindow
deriving DecidableEq, Repr, Inhabited

/-- State of a `TranscriptDict` object after `__init__` has run: the
fetched transcript entries and the `has_transcript` flag. -/
structure TranscriptDict where
  video_id : String
  video_url : String
  transcript_data : List Segment
  has_transcript : Bool
deriving DecidableEq, Repr, Inhabited

/-- The Python enumeration `for i, entry in enumerate(...)`, starting
at index `k`. -/
def enumSegs : ℕ → List Segment → List (ℕ × Segment)
  | _, [] => []
  | k, a :: rest => (k, a) :: enumSegs (k + 1) rest

/-- First loop of `get_query_usages_with_context` (`q` is the already
lowercased query): all `(i, entry)` with `q in entry["text"].lower()`. -/
def primaryMatches (data : List Segment) (q : String) : List (ℕ × Segment) :=
  (enumSegs 0 data).filter (fun p => pyContains p.2.text.strLower q)

/-- Fallback loop of `get_query_usages_with_context`: for every adjacent
pair starting at index `k`, if `q` occurs in
`current.lower() + " " + next.lower()` then both segments are appended. -/
def crossMatches (q : String) : ℕ → List Segment → List (ℕ × Segment)
  | _, [] => []
  | _, [_] => []
  | k, a :: b :: rest =>
    (if pyContains (a.text.strLower ++ " " ++ b.text.strLower) q then
      [(k, a), (k + 1, b)]
    else []) ++ crossMatches q (k + 1) (b :: rest)

/-- The `matches` list of `get_query_usages_with_context`: the primary
pass, falling back to the cross-segment pass only when the primary pass
found nothing. -/
def findMatches (data : List Segment) (q : String) : List (ℕ × Segment) :=
  let primary := primaryMatches data q
  if primary.isEmpty then crossMatches q 0 data else primary

/-- `after_time_limit`: `match_time + context_window`, raised with `max`
to `next_segment["start"] + context_window` for a cross-segment match. -/
def afterLimit (match_time w : ℚ) : Option Segment → ℚ
  | some ns => max (match_time + w) (ns.start + w)
  | none => match_time + w

/-- The skip test in the `context_after` loop:
`is_cross_segment and next_segment and entry["start"] == next_segment["start"]`. -/
def nsStartEq : Option Segment → Segment → Bool
  | some ns, e => decide (e.start = ns.start)
  | none, _ => false

/-- `self.transcript_data[-1]["start"] if self.transcript_data else 0`. -/
def lastTimestamp (data : List Segment) : ℚ :=
  match data.getLast? with
  | some e => e.start
  | none => 0

/-- Body of the per-match part of the loop in
`get_query_usages_with_context`: computes the adjacency lookup, both
context windows and the emitted result dictionary for one match. -/
def mkRecord (data : List Segment) (allMatches : List (ℕ × Segment)) (w : ℚ)
    (match_index : ℕ) (match_entry : Segment) : MatchRecord :=
  let match_time := match_entry.start
  let adj := allMatches.find? (fun p => p.1 == match_index + 1)
  let next_segment := adj.map Prod.snd
  let before_time_limit := max 0 (match_time - w)
  let available_before := match_time - before_time_limit
  let context_before := data.filter
    (fun e => decide (before_time_limit ≤ e.start) && decide (e.start < match_time))
  let after_time_limit := afterLimit match_time w next_segment
  let available_after := min after_time_limit (lastTimestamp data) - match_time
  let context_after := data.filter
    (fun e => (decide (match_time < e.start) && decide (e.start ≤ after_time_limit))
      && !(nsStartEq next_segment e))
  { match_entry := match_entry
    is_cross_segment := adj.isSome
    next_segment := next_segment
    context_before := ⟨context_before, available_before⟩
    context_after := ⟨context_after, available_after⟩ }

/-- The result-building loop of `get_query_usages_with_context`: walk the
match list, skip indices already in `processed_indices`, consume the
adjacent index of a cross-segment match, and emit one record per
remaining match. -/
def buildRecords (data : List Segment) (allMatches : List (ℕ × Segment)) (w : ℚ) :
    List ℕ → List (ℕ × Segment) → List MatchRecord
  | _, [] => []
  | processed, m :: rest =>
    if m.1 ∈ processed then buildRecords data allMatches w processed rest
    else
      match allMatches.find? (fun p => p.1 == m.1 + 1) with
      | some p =>
        mkRecord data allMatches w m.1 m.2 ::
          buildRecords data allMatches w (p.1 :: m.1 :: processed) rest
      | none =>
        mkRecord data allMatches w m.1 m.2 ::
          buildRecords data allMatches w (m.1 :: processed) rest

/-- The matches actually emitted by the loop of `buildRecords` (same
skip/consume discipline, returning the `(index, entry)` pairs). -/
def emittedMatches (allMatches : List (ℕ × Segment)) :
    List ℕ → List (ℕ × Segment) → List (ℕ × Segment)
  | _, [] => []
  | processed, m :: rest =>
    if m.1 ∈ processed then emittedMatches allMatches processed rest
    else
      match allMatches.find? (fun p => p.1 == m.1 + 1) with
      | some p => m :: emittedMatches allMatches (p.1 :: m.1 :: processed) rest
      | none => m :: emittedMatches allMatches (m.1 :: processed) rest

/-- A Python dict insertion `d[k] = v` on an insertion-ordered
association list: overwrite in place, else append. -/
def dictInsert (d : List (ℚ × String)) (k : ℚ) (v : String) : List (ℚ × String) :=
  if d.any (fun p => p.1 == k) then
    d.map (fun p => if p.1 == k then (k, v) else p)
  else d ++ [(k, v)]

/-- Embeds `TranscriptDict.get_query_usages`. -/
def TranscriptDict.get_query_usages (td : TranscriptDict) (query : String) :
    List (ℚ × String) :=
  if td.has_transcript = false then []
  else
    let q := query.strLower
    td.transcript_data.foldl
      (fun d entry =>
        if pyContains entry.text.strLower q then dictInsert d entry.start entry.text
        else d)
      []

/-- Embeds `TranscriptDict.get_query_usages_with_context`. -/
def TranscriptDict.get_query_usages_with_context (td : TranscriptDict)
    (query : String) (context_window : ℚ) : List MatchRecord :=
  if td.has_transcript = false then []
  else
    let q := query.strLower
    let ms := findMatches td.transcript_data q
    buildRecords td.transcript_data ms context_window [] ms

/-- The formatted line `f"[{timestamp}] {entry['text']}\n\n"` used by
`fetch_transcript` and `get_full_transcript`. -/
def renderEntry (e : Segment) : String :=
  "[" ++ format_timestamp e.start ++ "] " ++ e.text ++ "\n\n"

/-- Concatenation of rendered entries. -/
def renderAll : List Segment → String
  | [] => ""
  | e :: rest => renderEntry e ++ renderAll rest

/-- The loop condition of `fetch_transcript`:
`entry["start"] >= start_time and (end_time == 0 or entry["start"] <= end_time)`. -/
def keepEntry (start_time end_time : ℚ) (entry : Segment) : Bool :=
  decide (start_time ≤ entry.start)
    && (decide (end_time = 0) || decide (entry.start ≤ end_time))

/-- The segments that the loop of `fetch_transcript` renders. -/
def sliceSegments (data : List Segment) (start_time end_time : ℚ) : List Segment :=
  data.filter (keepEntry start_time end_time)

/-- Embeds `TranscriptDict.fetch_transcript`.  The `title` argument
stands for the result of the network call `get_video_title(self.video_url)`
made on the no-transcript path. -/
def TranscriptDict.fetch_transcript (td : TranscriptDict) (title : String)
    (start_time end_time : ℚ) : String :=
  if td.has_transcript = false then
    "No transcript available for video: " ++ title ++ " (ID: " ++ td.video_id ++ ")"
  else
    td.transcript_data.foldl
      (fun sec entry =>
        if keepEntry start_time end_time entry then sec ++ renderEntry entry
        else sec)
      ""

/-- Ascending start times, the transcript order guaranteed by the data
model of the specification. -/
def sortedByStart (l : List Segment) : Prop :=
  l.Pairwise (fun a b => a.start ≤ b.start)

/-- Split a character list at the first occurrence of `c`, returning the
parts before and after it (none when `c` does not occur). -/
def splitFirstChar (c : Char) : List Char → Option (List Char × List Char)
  | [] => none
  | a :: rest =>
    if a == c then some ([], rest)
    else
      match splitFirstChar c rest with
      | some (l, r) => some (a :: l, r)
      | none => none

/-- Split a character list at every occurrence of `c` (the semantics of
the Python `str.split` with a one-character separator). -/
def splitAllChar (c : Char) : List Char → List (List Char)
  | [] => [[]]
  | a :: rest =>
    if a == c then [] :: splitAllChar c rest
    else
      match splitAllChar c rest with
      | [] => [[a]]
      | h :: t => (a :: h) :: t

/-- The `path` and `query` components of `urllib.parse.urlparse`,
restricted to the fields `parse_video_id` reads. -/
structure UrlParts where
  path : String
  query : String
deriving DecidableEq, Repr

/-- Embeds `urllib.parse.urlparse` for the URL shapes the program
documents (absolute `scheme://netloc/path` URLs and bare identifiers):
the fragment is cut at the first `#`, the query starts after the first
`?`, the scheme ends at the first `:`, and when an authority `//...`
follows the scheme, the path is what follows the authority. -/
def pyUrlparse (url : String) : UrlParts :=
  let noFrag := (splitAllChar '#' url.data).headD url.data
  let mainQuery :=
    match splitFirstChar '?' noFrag with
    | some (m, q) => (m, q)
    | none => (noFrag, [])
  let path :=
    match splitFirstChar ':' mainQuery.1 with
    | some (_scheme, rest) =>
      if prefixCheck ['/', '/'] rest then
        match splitFirstChar '/' (rest.drop 2) with
        | some (_netloc, p) => '/' :: p
        | none => []
      else rest
    | none => mainQuery.1
  ⟨String.mk path, String.mk mainQuery.2⟩

/-- Embeds `urllib.parse.parse_qs` on the separators the program meets:
split on `&`, split each piece at its first `=`, keep only pieces with a
nonempty value (percent-decoding is not modelled, no escapes occur in
the inputs). -/
def pyParse_qs (q : String) : List (String × String) :=
  (splitAllChar '&' q.data).filterMap
    (fun s =>
      match splitFirstChar '=' s with
      | none => none
      | some (k, v) =>
        if v.isEmpty then none else some (String.mk k, String.mk v))

/-- Python `sep.join(parts)`. -/
def joinSep (sep : String) : List String → String
  | [] => ""
  | [s] => s
  | s :: rest => s ++ sep ++ joinSep sep rest

/-- First value stored under `key`: `parse_qs(query)[key][0]`. -/
def qsLookup (ps : List (String × String)) (key : String) : Option String :=
  (ps.find? (fun p => p.1 == key)).map Prod.snd

/-- Embeds `parse_video_id`.  The dictionary access
`parse_qs(parsed.query)["v"][0]` raises `KeyError` when the query string
holds no `v` parameter; this is modelled by `Except.error`. -/
def parse_video_id (url : String) : Except String String :=
  let parsed := pyUrlparse url
  if pyContains parsed.path "live" then
    Except.ok (String.mk ((splitAllChar '/' parsed.path.data).getLastD parsed.path.data))
  else if parsed.query ≠ "" then
    match qsLookup (pyParse_qs parsed.query) "v" with
    | some v => Except.ok v
    | none => Except.error "KeyError: v"
  else Except.ok url

/-- Embeds `get_video_title`.  `net` describes the outcome of the
`requests.get` call: `some title` for a 200 response carrying `title`,
`none` for a non-200 response or a raised exception (both fall back to
`"Video {id}"`).  The `parse_video_id` call sits before the `try`
block, so its failure propagates. -/
def get_video_title (net : Option String) (video_url : String) :
    Except String String :=
  match parse_video_id video_url with
  | Except.error e => Except.error e
  | Except.ok vid_id =>
    match net with
    | some title => Except.ok title
    | none => Except.ok ("Video " ++ vid_id)

/-- Embeds `generate_link`: `parse_video_id` (which may raise), then
`https://www.youtube.com/watch?v={id}&t={int(timestamp)}s`. -/
def generate_link (url : String) (timestamp : ℚ) (_title : Option String) :
    Except String String :=
  match parse_video_id url with
  | Except.error e => Except.error e
  | Except.ok video_id =>
    Except.ok ("https://www.youtube.com/watch?v=" ++ video_id ++ "&t="
      ++ toString (pyInt timestamp) ++ "s")

/-- Embeds the tool `get_full_transcript`.  `fetched` describes the
outcome of the transcript fetch (`none` meaning the library raised).
The outer `except` handler itself calls `get_video_title`, whose
`parse_video_id` may raise again and escape the tool. -/
def get_full_transcript (net : Option String) (fetched : Option (List Segment))
    (video_url : String) : Except String String :=
  match (do
      let _video_id ← parse_video_id video_url
      match fetched with
      | some data => pure (renderAll data)
      | none =>
        match get_video_title net video_url with
        | Except.error e => Except.error e
        | Except.ok title =>
          pure ("No transcript available for video: " ++ title ++ ")")
    : Except String String) with
  | Except.ok s => Except.ok s
  | Except.error e =>
    match get_video_title net video_url with
    | Except.error e2 => Except.error e2
    | Except.ok title =>
      Except.ok ("Error retrieving transcript: " ++ e ++ "\nVideo: " ++ title ++ ")")

/-- Embeds the tool `get_video_information`.  `langs` describes the
outcome of `list_transcripts` (`some` carries the language names).  Both
`parse_video_id` and `get_video_title` run outside any `try`. -/
def get_video_information (net : Option String) (langs : Option (List String))
    (video_url : String) : Except String String :=
  match parse_video_id video_url with
  | Except.error e => Except.error e
  | Except.ok video_id =>
    match get_video_title net video_url with
    | Except.error e => Except.error e
    | Except.ok title =>
      match langs with
      | some ls =>
        Except.ok ("Title: " ++ title ++ "\nVideo ID: " ++ video_id
          ++ "\nAvailable transcript languages: " ++ joinSep ", " ls)
      | none =>
        Except.ok ("Title: " ++ title ++ "\nNo transcripts available for this video.")

/-- The per-result formatting loop of `search_transcript` (`i` counts the
results for the divider between them). -/
def formatResultsAux (video_url title : String) :
    ℕ → List MatchRecord → Except String String
  | _, [] => Except.ok ""
  | i, r :: rest => do
    let divider :=
      if 0 < i then "\n" ++ String.mk (List.replicate 50 '-') ++ "\n\n" else ""
    let tsM := format_timestamp r.match_entry.start
    let link ← generate_link video_url r.match_entry.start (some title)
    let beforeLines :=
      if r.context_before.entries.isEmpty then
        "No context available before this match (beginning of video)\n"
      else
        String.join (r.context_before.entries.map
          (fun e => "[" ++ format_timestamp e.start ++ "] " ++ e.text ++ "\n"))
    let beforeBlock :=
      "=== CONTEXT BEFORE (AVAILABLE: "
        ++ toString (pyInt r.context_before.available_seconds) ++ "s) ===\n"
        ++ beforeLines
    let matchBlock :=
      "\n=== QUERY MATCH ===\n" ++
      (match r.next_segment with
       | some ns =>
         if r.is_cross_segment then
           "[" ++ tsM ++ "] " ++ r.match_entry.text ++ "\n"
             ++ "[" ++ format_timestamp ns.start ++ "] " ++ ns.text ++ "\n"
             ++ "(Link: " ++ link ++ ")\n"
         else
           "[" ++ tsM ++ "] " ++ r.match_entry.text ++ " (Link: " ++ link ++ ")\n"
       | none =>
         "[" ++ tsM ++ "] " ++ r.match_entry.text ++ " (Link: " ++ link ++ ")\n")
    let afterLines :=
      if r.context_after.entries.isEmpty then
        "No context available after this match (end of video)\n"
      else
        String.join (r.context_after.entries.map
          (fun e => "[" ++ format_timestamp e.start ++ "] " ++ e.text ++ "\n"))
    let afterBlock :=
      "\n=== CONTEXT AFTER (AVAILABLE: "
        ++ toString (pyInt r.context_after.available_seconds) ++ "s) ===\n"
        ++ afterLines
    let restStr ← formatResultsAux video_url title (i + 1) rest
    Except.ok (divider ++ beforeBlock ++ matchBlock ++ afterBlock ++ restStr)

/-- Embeds the tool `search_transcript`.  The `get_video_title` call on
the first line sits before the `try` block: its failure escapes the
tool.  Failures inside the `try` are converted to an
`Error processing transcript:` text. -/
def search_transcript (net : Option String) (fetched : Option (List Segment))
    (video_url query : String) (context_window : ℚ) : Except String String :=
  match get_video_title net video_url with
  | Except.error e => Except.error e
  | Except.ok title =>
    match (do
        let vid ← parse_video_id video_url
        let td : TranscriptDict := ⟨vid, video_url, fetched.getD [], fetched.isSome⟩
        if td.has_transcript = false then
          Except.ok ("No transcript available for video: " ++ title)
        else
          let results := td.get_query_usages_with_context query.strLower context_window
          if results.isEmpty then
            Except.ok ("No matches found for \x27" ++ query ++ "\x27 in video: " ++ title)
          else do
            let body ← formatResultsAux video_url title 0 results
            Except.ok ("Found " ++ toString results.length ++ " matches for \x27"
              ++ query ++ "\x27 in video: " ++ title ++ "\n\n" ++ body)
      : Except String String) with
    | Except.ok s => Except.ok s
    | Except.error e => Except.ok ("Error processing transcript: " ++ e)

/-- Closing instruction text appended by `get_transcript_section`. -/
def sectionTrailer : String :=
  "\n\nWhen displaying this to the user, you must also include the timestamped links to the sections that contain the query so that the user can directly click on them in the client. Also, make sure to format the transcript text to be readable, adding punctuation and paragraphing where necessary, and remove unnecessary filler words."

/-- Embeds the tool `get_transcript_section`.  Inside the `try`, the
`TranscriptDict` constructor parses the URL and `fetch_transcript` calls
`get_video_title` on the no-transcript path; the `except` handler calls
`get_video_title` again, so a URL-resolution failure escapes the tool. -/
def get_transcript_section (net : Option String) (fetched : Option (List Segment))
    (video_url : String) (start_time end_time : ℚ) : Except String String :=
  match (do
      let vid ← parse_video_id video_url
      let td : TranscriptDict := ⟨vid, video_url, fetched.getD [], fetched.isSome⟩
      if td.has_transcript = false then do
        let title ← get_video_title net video_url
        pure (td.fetch_transcript title start_time end_time)
      else do
        let link ← generate_link video_url start_time none
        pure ("Transcript section from " ++ format_timestamp start_time ++ " to "
          ++ format_timestamp (if end_time = 0 then 999999 else end_time)
          ++ ":\n\nTimestamped link: " ++ link ++ "\n\n"
          ++ td.fetch_transcript "" start_time end_time ++ sectionTrailer)
    : Except String String) with
  | Except.ok s => Except.ok s
  | Except.error e =>
    match get_video_title net video_url with
    | Except.error e2 => Except.error e2
    | Except.ok title =>
      Except.ok ("Error retrieving transcript section: " ++ e ++ "\nVideo: " ++ title)

deriving instance DecidableEq for Except

/-! ### Facts about the enumeration and the two matching passes -/

theorem enumSegs_mem_le (l : List Segment) :
    ∀ (k : ℕ) (m : ℕ × Segment), m ∈ enumSegs k l → k ≤ m.1 := by
  induction l with
  | nil => intro k m h; simp [enumSegs] at h
  | cons a rest ih =>
    intro k m h
    simp only [enumSegs, List.mem_cons] at h
    rcases h with h | h
    · subst h; exact Nat.le_refl k
    · have := ih (k + 1) m h; omega

theorem enumSegs_get? (l : List Segment) :
    ∀ (k : ℕ) (m : ℕ × Segment), m ∈ enumSegs k l → l.get? (m.1 - k) = some m.2 := by
  induction l with
  | nil => intro k m h; simp [enumSegs] at h
  | cons a rest ih =>
    intro k m h
    simp only [enumSegs, List.mem_cons] at h
    rcases h with h | h
    · subst h; simp
    · have hle := enumSegs_mem_le rest (k + 1) m h
      have h2 := ih (k + 1) m h
      have : m.1 - k = (m.1 - (k + 1)) + 1 := by omega
      rw [this]
      simpa using h2

theorem enumSegs_mem_get (l : List Segment) :
    ∀ (k i : ℕ) (h : i < l.length),
      (k + i, l.get ⟨i, h⟩) ∈ enumSegs k l := by
  induction l with
  | nil => intro k i h; simp at h
  | cons a rest ih =>
    intro k i h
    cases i with
    | zero => simp [enumSegs]
    | succ j =>
      have hj : j < rest.length := Nat.lt_of_succ_lt_succ h
      have := ih (k + 1) j hj
      simp only [enumSegs, List.mem_cons]
      right
      have harith : k + (j + 1) = (k + 1) + j := by omega
      rw [harith]
      exact this

theorem enumSegs_pairwise (l : List Segment) :
    ∀ (k : ℕ),
      List.Pairwise (fun a b : ℕ × Segment => a.1 < b.1) (enumSegs k l) := by
  induction l with
  | nil => intro k; simp [enumSegs]
  | cons a rest ih =>
    intro k
    simp only [enumSegs]
    refine List.Pairwise.cons ?_ (ih (k + 1))
    intro m hm
    have := enumSegs_mem_le rest (k + 1) m hm
    omega

theorem crossMatches_mem_le (q : String) (l : List Segment) :
    ∀ (k : ℕ) (m : ℕ × Segment), m ∈ crossMatches q k l → k ≤ m.1 := by
  induction l with
  | nil => intro k m h; simp [crossMatches] at h
  | cons a rest ih =>
    intro k m h
    cases rest with
    | nil => simp [crossMatches] at h
    | cons b rest2 =>
      simp only [crossMatches, List.mem_append] at h
      rcases h with h | h
      · by_cases hc :
          pyContains (a.text.strLower ++ " " ++ b.text.strLower) q = true
        · rw [if_pos hc] at h
          simp only [List.mem_cons, List.mem_singleton] at h
          rcases h with h | h | h
          · subst h; exact Nat.le_refl k
          · subst h; omega
          · simp at h
        · rw [if_neg hc] at h; simp at h
      · have := ih (k + 1) m h; omega

theorem crossMatches_get? (q : String) (l : List Segment) :
    ∀ (k : ℕ) (m : ℕ × Segment), m ∈ crossMatches q k l →
      l.get? (m.1 - k) = some m.2 := by
  induction l with
  | nil => intro k m h; simp [crossMatches] at h
  | cons a rest ih =>
    intro k m h
    cases rest with
    | nil => simp [crossMatches] at h
    | cons b rest2 =>
      simp only [crossMatches, List.mem_append] at h
      rcases h with h | h
      · by_cases hc :
          pyContains (a.text.strLower ++ " " ++ b.text.strLower) q = true
        · rw [if_pos hc] at h
          simp only [List.mem_cons, List.mem_singleton] at h
          rcases h with h | h | h
          · subst h; simp
          · subst h; simp
          · simp at h
        · rw [if_neg hc] at h; simp at h
      · have hle := crossMatches_mem_le q (b :: rest2) (k + 1) m h
        have h2 := ih (k + 1) m h
        have : m.1 - k = (m.1 - (k + 1)) + 1 := by omega
        rw [this]
        simpa using h2

theorem crossMatches_pairwise (q : String) (l : List Segment) :
    ∀ (k : ℕ),
      List.Pairwise (fun a b : ℕ × Segment => a.1 ≤ b.1) (crossMatches q k l) := by
  induction l with
  | nil => intro k; simp [crossMatches]
  | cons a rest ih =>
    intro k
    cases rest with
    | nil => simp [crossMatches]
    | cons b rest2 =>
      simp only [crossMatches]
      refine List.pairwise_append.mpr ⟨?_, ih (k + 1), ?_⟩
      · by_cases hc :
          pyContains (a.text.strLower ++ " " ++ b.text.strLower) q = true
        · rw [if_pos hc]
          refine List.Pairwise.cons ?_ ?_
          · intro m hm
            simp only [List.mem_singleton] at hm
            subst hm; omega
          · simp
        · rw [if_neg hc]; simp
      · intro x hx y hy
        have hy1 := crossMatches_mem_le q (b :: rest2) (k + 1) y hy
        by_cases hc :
          pyContains (a.text.strLower ++ " " ++ b.text.strLower) q = true
        · rw [if_pos hc] at hx
          simp only [List.mem_cons, List.mem_singleton] at hx
          rcases hx with hx | hx | hx
          · subst hx; omega
          · subst hx; omega
          · simp at hx
        · rw [if_neg hc] at hx; simp at hx

theorem crossMatches_mem_pair (q : String) (l : List Segment) :
    ∀ (k i : ℕ) (hi : i < l.length) (hi1 : i + 1 < l.length),
      pyContains ((l.get ⟨i, hi⟩).text.strLower ++ " "
          ++ (l.get ⟨i + 1, hi1⟩).text.strLower) q = true →
      (k + i, l.get ⟨i, hi⟩) ∈ crossMatches q k l ∧
        (k + i + 1, l.get ⟨i + 1, hi1⟩) ∈ crossMatches q k l := by
  induction l with
  | nil => intro k i hi hi1 hc; simp at hi
  | cons a rest ih =>
    intro k i hi hi1 hc
    cases rest with
    | nil => simp at hi1
    | cons b rest2 =>
      cases i with
      | zero =>
        simp only [List.get] at hc
        simp only [crossMatches, List.mem_append]
        constructor
        · left; rw [if_pos hc]; simp
        · left; rw [if_pos hc]; simp
      | succ j =>
        have hj : j < (b :: rest2).length := Nat.lt_of_succ_lt_succ hi
        have hj1 : j + 1 < (b :: rest2).length := Nat.lt_of_succ_lt_succ hi1
        have := ih (k + 1) j hj hj1 hc
        have harith : k + (j + 1) = (k + 1) + j := by omega
        simp only [crossMatches, List.mem_append]
        exact ⟨Or.inr (by rw [harith]; exact this.1),
          Or.inr (by rw [show k + (j + 1) + 1 = (k + 1) + j + 1 by omega]; exact this.2)⟩

theorem findMatches_pairwise_le (data : List Segment) (q : String) :
    List.Pairwise (fun a b : ℕ × Segment => a.1 ≤ b.1) (findMatches data q) := by
  unfold findMatches
  by_cases h : (primaryMatches data q).isEmpty = true
  · rw [if_pos h]; exact crossMatches_pairwise q data 0
  · rw [if_neg h]
    exact ((enumSegs_pairwise data 0).filter _).imp (fun hab => Nat.le_of_lt hab)

theorem findMatches_get? (data : List Segment) (q : String) (m : ℕ × Segment)
    (h : m ∈ findMatches data q) : data.get? m.1 = some m.2 := by
  unfold findMatches at h
  by_cases hp : (primaryMatches data q).isEmpty = true
  · rw [if_pos hp] at h
    have := crossMatches_get? q data 0 m h
    simpa using this
  · rw [if_neg hp] at h
    have hm := List.mem_of_mem_filter h
    have := enumSegs_get? data 0 m hm
    simpa using this

theorem findMatches_mem_data (data : List Segment) (q : String) (m : ℕ × Segment)
    (h : m ∈ findMatches data q) : m.2 ∈ data :=
  List.get?_mem (findMatches_get? data q m h)

/-! ### Facts about the record-building loop -/

theorem buildRecords_eq_map (data : List Segment) (allMatches : List (ℕ × Segment))
    (w : ℚ) :
    ∀ (l : List (ℕ × Segment)) (processed : List ℕ),
      buildRecords data allMatches w processed l =
        (emittedMatches allMatches processed l).map
          (fun m => mkRecord data allMatches w m.1 m.2) := by
  intro l
  induction l with
  | nil => intro processed; simp [buildRecords, emittedMatches]
  | cons m rest ih =>
    intro processed
    by_cases hm : m.1 ∈ processed
    · simp only [buildRecords, emittedMatches, if_pos hm]
      exact ih processed
    · simp only [buildRecords, emittedMatches, if_neg hm]
      cases hfind : allMatches.find? (fun p => p.1 == m.1 + 1) with
      | none => simp [ih]
      | some p => simp [ih]

theorem emittedMatches_sub (allMatches : List (ℕ × Segment)) :
    ∀ (l : List (ℕ × Segment)) (processed : List ℕ) (m : ℕ × Segment),
      m ∈ emittedMatches allMatches processed l →
        m ∈ l ∧ m.1 ∉ processed := by
  intro l
  induction l with
  | nil => intro processed m h; simp [emittedMatches] at h
  | cons a rest ih =>
    intro processed m h
    by_cases ha : a.1 ∈ processed
    · rw [emittedMatches, if_pos ha] at h
      have := ih processed m h
      exact ⟨List.mem_cons_of_mem a this.1, this.2⟩
    · rw [emittedMatches, if_neg ha] at h
      cases hfind : allMatches.find? (fun p => p.1 == a.1 + 1) with
      | none =>
        rw [hfind] at h
        rcases List.mem_cons.mp h with h | h
        · subst h; exact ⟨List.mem_cons_self m rest, ha⟩
        · have := ih (a.1 :: processed) m h
          exact ⟨List.mem_cons_of_mem a this.1,
            fun hc => this.2 (List.mem_cons_of_mem a.1 hc)⟩
      | some p =>
        rw [hfind] at h
        rcases List.mem_cons.mp h with h | h
        · subst h; exact ⟨List.mem_cons_self m rest, ha⟩
        · have := ih (p.1 :: a.1 :: processed) m h
          refine ⟨List.mem_cons_of_mem a this.1, fun hc => this.2 ?_⟩
          exact List.mem_cons_of_mem p.1 (List.mem_cons_of_mem a.1 hc)

theorem emittedMatches_pairwise (allMatches : List (ℕ × Segment)) :
    ∀ (l : List (ℕ × Segment)) (processed : List ℕ),
      List.Pairwise (fun a b : ℕ × Segment => a.1 ≤ b.1) l →
      List.Pairwise (fun a b : ℕ × Segment => a.1 < b.1)
        (emittedMatches allMatches processed l) := by
  intro l
  induction l with
  | nil => intro processed _; simp [emittedMatches]
  | cons a rest ih =>
    intro processed hpw
    have hhead := List.pairwise_cons.mp hpw
    by_cases ha : a.1 ∈ processed
    · rw [emittedMatches, if_pos ha]
      exact ih processed hhead.2
    · rw [emittedMatches, if_neg ha]
      cases hfind : allMatches.find? (fun p => p.1 == a.1 + 1) with
      | none =>
        refine List.Pairwise.cons ?_ (ih (a.1 :: processed) hhead.2)
        intro y hy
        have hsub := emittedMatches_sub allMatches rest (a.1 :: processed) y hy
        have hle := hhead.1 y hsub.1
        have hne : y.1 ≠ a.1 := fun hc => hsub.2 (hc ▸ List.mem_cons_self a.1 processed)
        omega
      | some p =>
        refine List.Pairwise.cons ?_ (ih (p.1 :: a.1 :: processed) hhead.2)
        intro y hy
        have hsub := emittedMatches_sub allMatches rest (p.1 :: a.1 :: processed) y hy
        have hle := hhead.1 y hsub.1
        have hne : y.1 ≠ a.1 := fun hc =>
          hsub.2 (List.mem_cons_of_mem p.1 (hc ▸ List.mem_cons_self a.1 processed))
        omega

theorem emittedMatches_consumed (allMatches : List (ℕ × Segment)) :
    ∀ (l : List (ℕ × Segment)) (processed : List ℕ) (i : ℕ) (e e2 : Segment),
      List.Pairwise (fun a b : ℕ × Segment => a.1 ≤ b.1) l →
      (i, e) ∈ emittedMatches allMatches processed l →
      (allMatches.find? (fun p => p.1 == i + 1)).isSome = true →
      (i + 1, e2) ∉ emittedMatches allMatches processed l := by
  intro l
  induction l with
  | nil => intro processed i e e2 _ h _; simp [emittedMatches] at h
  | cons a rest ih =>
    intro processed i e e2 hpw hmem hfind hmem2
    have hhead := List.pairwise_cons.mp hpw
    by_cases ha : a.1 ∈ processed
    · rw [emittedMatches, if_pos ha] at hmem hmem2
      exact ih processed i e e2 hhead.2 hmem hfind hmem2
    · rw [emittedMatches, if_neg ha] at hmem hmem2
      cases hf : allMatches.find? (fun p => p.1 == a.1 + 1) with
      | none =>
        rw [hf] at hmem hmem2
        rcases List.mem_cons.mp hmem with h | h
        · -- the head is the emitted match (i, e): then find? at i+1 is none
          have hia : i = a.1 := by
            have : (i, e).1 = a.1 := by rw [h]
            simpa using this
          rw [hia] at hfind
          rw [hf] at hfind
          simp at hfind
        · rcases List.mem_cons.mp hmem2 with h2 | h2
          · -- head equals (i+1, e2): but (i, e) sits in the tail, indices ≥ a.1 = i+1
            have hia : i + 1 = a.1 := by
              have : (i + 1, e2).1 = a.1 := by rw [h2]
              simpa using this
            have hsub := emittedMatches_sub allMatches rest (a.1 :: processed) (i, e) h
            have := hhead.1 (i, e) hsub.1
            simp only at this
            omega
          · exact ih (a.1 :: processed) i e e2 hhead.2 h hfind h2
      | some p =>
        rw [hf] at hmem hmem2
        rcases List.mem_cons.mp hmem with h | h
        · -- head emitted and its adjacent index p.1 = a.1 + 1 is consumed
          have hia : i = a.1 := by
            have : (i, e).1 = a.1 := by rw [h]
            simpa using this
          have hp1 : p.1 = a.1 + 1 := by
            have := List.find?_some hf
            simpa using this
          rcases List.mem_cons.mp hmem2 with h2 | h2
          · have : (i + 1, e2).1 = a.1 := by rw [h2]
            simp only at this
            omega
          · have hsub := emittedMatches_sub allMatches rest (p.1 :: a.1 :: processed)
              (i + 1, e2) h2
            exact hsub.2 (by rw [hp1, ← hia]; simp)
        · rcases List.mem_cons.mp hmem2 with h2 | h2
          · have hia : i + 1 = a.1 := by
              have : (i + 1, e2).1 = a.1 := by rw [h2]
              simpa using this
            have hsub := emittedMatches_sub allMatches rest (p.1 :: a.1 :: processed) (i, e) h
            have := hhead.1 (i, e) hsub.1
            simp only at this
            omega
          · exact ih (p.1 :: a.1 :: processed) i e e2 hhead.2 h hfind h2

/-- Every record returned by `get_query_usages_with_context` is the
`mkRecord` image of a member of the match list. -/
theorem results_characterization (td : TranscriptDict) (query : String) (w : ℚ)
    (r : MatchRecord) (hr : r ∈ td.get_query_usages_with_context query w) :
    ∃ m : ℕ × Segment,
      m ∈ findMatches td.transcript_data query.strLower ∧
      r = mkRecord td.transcript_data
        (findMatches td.transcript_data query.strLower) w m.1 m.2 := by
  by_cases h : td.has_transcript = false
  · simp only [TranscriptDict.get_query_usages_with_context, if_pos h] at hr
    simp at hr
  · simp only [TranscriptDict.get_query_usages_with_context, if_neg h] at hr
    rw [buildRecords_eq_map] at hr
    rcases List.mem_map.mp hr with ⟨m, hm, hrm⟩
    have hsub := emittedMatches_sub _ _ _ m hm
    exact ⟨m, hsub.1, hrm.symm⟩

/-! ### Test fixtures -/

def tdW1 : TranscriptDict :=
  ⟨"v1", "u1", [⟨0, "hello"⟩, ⟨5, "world peace"⟩], true⟩

def tdW2 : TranscriptDict :=
  ⟨"v2", "u2", [⟨0, "abc de"⟩, ⟨5, "fg hi"⟩], true⟩

def tdDup : TranscriptDict :=
  ⟨"v3", "u3", [⟨0, "ab"⟩, ⟨1, "cd"⟩, ⟨1, "xx"⟩], true⟩

def tdU : TranscriptDict := ⟨"vid", "url", [], false⟩

/-! ### Claims -/

/-- C1: for every transcript and query, if the lowercased query occurs as
a substring of the lowercased text of the segment at index `i`, then the
primary pass of `get_query_usages_with_context` (its first loop,
`primaryMatches`) includes the pair `(i, segment)` in its match list, and
that list scans the segments in transcript order (strictly ascending
indices). -/
theorem c1_primary_pass_includes (td : TranscriptDict) (query : String) (i : ℕ)
    (h : i < td.transcript_data.length)
    (hmatch : pyContains ((td.transcript_data.get ⟨i, h⟩).text.strLower)
      query.strLower = true) :
    (i, td.transcript_data.get ⟨i, h⟩) ∈
      primaryMatches td.transcript_data query.strLower ∧
    List.Pairwise (fun a b : ℕ × Segment => a.1 < b.1)
      (primaryMatches td.transcript_data query.strLower) := by
  constructor
  · refine List.mem_filter.mpr ⟨?_, ?_⟩
    · have := enumSegs_mem_get td.transcript_data 0 i h
      simpa using this
    · simpa using hmatch
  · exact (enumSegs_pairwise td.transcript_data 0).filter _

theorem c1_primary_pass_includes_witness :
    (1, Segment.mk 5 "world peace") ∈
      primaryMatches tdW1.transcript_data (String.strLower "Peace") ∧
    List.Pairwise (fun a b : ℕ × Segment => a.1 < b.1)
      (primaryMatches tdW1.transcript_data (String.strLower "Peace")) :=
  c1_primary_pass_includes tdW1 "Peace" 1 (by decide) (by decide)

/-- C2: the cross-segment fallback pass runs only when the primary pass
produced zero matches (when the primary list is nonempty, the match list
is exactly the primary list); and when the fallback runs, every adjacent
pair whose lowercased texts joined by a single space contain the
lowercased query contributes both its segments to the match list. -/
theorem c2_fallback_policy (data : List Segment) (q : String) :
    (primaryMatches data q ≠ [] → findMatches data q = primaryMatches data q) ∧
    (primaryMatches data q = [] →
      ∀ (i : ℕ) (hi : i < data.length) (hi1 : i + 1 < data.length),
        pyContains ((data.get ⟨i, hi⟩).text.strLower ++ " "
            ++ (data.get ⟨i + 1, hi1⟩).text.strLower) q = true →
        (i, data.get ⟨i, hi⟩) ∈ findMatches data q ∧
          (i + 1, data.get ⟨i + 1, hi1⟩) ∈ findMatches data q) := by
  constructor
  · intro hne
    unfold findMatches
    rw [if_neg (by simpa [List.isEmpty_iff] using hne)]
  · intro hempty i hi hi1 hc
    have := crossMatches_mem_pair q data 0 i hi hi1 hc
    unfold findMatches
    rw [if_pos (by simpa [List.isEmpty_iff] using hempty)]
    simpa using this

theorem c2_fallback_policy_witness :
    (findMatches tdW1.transcript_data "peace" =
      primaryMatches tdW1.transcript_data "peace") ∧
    ((0, Segment.mk 0 "abc de") ∈ findMatches tdW2.transcript_data "de fg" ∧
      (1, Segment.mk 5 "fg hi") ∈ findMatches tdW2.transcript_data "de fg") :=
  ⟨(c2_fallback_policy tdW1.transcript_data "peace").1 (by decide),
   (c2_fallback_policy tdW2.transcript_data "de fg").2 (by decide)
     0 (by decide) (by decide) (by decide)⟩

/-- C3, amended behavior: on an unavailable transcript both search
operations return the empty list, and `fetch_transcript` returns the
no-transcript message (not an empty slice). -/
theorem c3_unavailable_returns_empty (td : TranscriptDict)
    (title query : String) (w s e : ℚ) (h : td.has_transcript = false) :
    td.get_query_usages query = [] ∧
    td.get_query_usages_with_context query w = [] ∧
    td.fetch_transcript title s e =
      "No transcript available for video: " ++ title
        ++ " (ID: " ++ td.video_id ++ ")" := by
  refine ⟨?_, ?_, ?_⟩
  · simp [TranscriptDict.get_query_usages, h]
  · simp [TranscriptDict.get_query_usages_with_context, h]
  · simp [TranscriptDict.fetch_transcript, h]

theorem c3_unavailable_returns_empty_witness :
    tdU.has_transcript = false ∧
    (tdU.get_query_usages "q" = [] ∧
      tdU.get_query_usages_with_context "q" 15 = [] ∧
      tdU.fetch_transcript "Title" 0 0 =
        "No transcript available for video: " ++ "Title"
          ++ " (ID: " ++ tdU.video_id ++ ")") :=
  ⟨rfl, c3_unavailable_returns_empty tdU "Title" "q" 15 0 0 rfl⟩

/-- C3 as stated is false on the code: for an unavailable transcript,
`fetch_transcript` does not return an empty slice (whose rendering is
the empty string, as the available-but-empty transcript shows) but a
user-facing message produced inside the method. -/
theorem c3_counterexample :
    tdU.fetch_transcript "Title" 0 0 =
      "No transcript available for video: Title (ID: vid)" ∧
    tdU.fetch_transcript "Title" 0 0 ≠ "" ∧
    (⟨"vid", "url", [], true⟩ : TranscriptDict).fetch_transcript "Title" 0 0 = "" := by
  decide

/-- The context-before window properties of one produced record. -/
def beforeWindowSpec (td : TranscriptDict) (w : ℚ) (r : MatchRecord) : Prop :=
  r.context_before.entries = td.transcript_data.filter
    (fun e => decide (max 0 (r.match_entry.start - w) ≤ e.start)
      && decide (e.start < r.match_entry.start)) ∧
  r.context_before.available_seconds =
    r.match_entry.start - max 0 (r.match_entry.start - w) ∧
  0 ≤ r.context_before.available_seconds ∧
  r.context_before.available_seconds ≤ w ∧
  (w ≤ r.match_entry.start → r.context_before.available_seconds = w)

/-- C4: for every record produced by `get_query_usages_with_context`
(under the data model: nonnegative start times, nonnegative window), the
context-before window has lower bound `max 0 (match_time - w)`, its
entries are exactly the segments with start in `[lower, match_time)`,
`available_seconds = match_time - lower`, is between `0` and `w`, and
equals `w` once the match time is at least `w`. -/
theorem c4_context_before (td : TranscriptDict) (query : String) (w : ℚ)
    (r : MatchRecord) (hw : 0 ≤ w)
    (hpos : ∀ x ∈ td.transcript_data, 0 ≤ x.start)
    (hr : r ∈ td.get_query_usages_with_context query w) :
    beforeWindowSpec td w r := by
  obtain ⟨m, hm, rfl⟩ := results_characterization td query w r hr
  have hmem := findMatches_mem_data _ _ _ hm
  have h0 : 0 ≤ m.2.start := hpos _ hmem
  unfold beforeWindowSpec
  refine ⟨rfl, rfl, ?_, ?_, ?_⟩
  · show 0 ≤ m.2.start - max 0 (m.2.start - w)
    have h1 : max 0 (m.2.start - w) ≤ m.2.start :=
      max_le h0 (by linarith)
    linarith
  · show m.2.start - max 0 (m.2.start - w) ≤ w
    have h2 : m.2.start - w ≤ max 0 (m.2.start - w) := le_max_right _ _
    linarith
  · intro hwle
    have hwle2 : w ≤ m.2.start := hwle
    show m.2.start - max 0 (m.2.start - w) = w
    have : max 0 (m.2.start - w) = m.2.start - w := max_eq_right (by linarith)
    rw [this]; ring

/-- The record produced for `tdW1` and query `peace`. -/
def r1 : MatchRecord :=
  ⟨⟨5, "world peace"⟩, false, none, ⟨[⟨0, "hello"⟩], 5⟩, ⟨[], 0⟩⟩

unseal Rat.add Rat.sub Rat.mul Rat.inv in
theorem c4_context_before_witness :
    (0 : ℚ) ≤ 15 ∧ (∀ x ∈ tdW1.transcript_data, 0 ≤ x.start) ∧
    r1 ∈ tdW1.get_query_usages_with_context "peace" 15 ∧
    beforeWindowSpec tdW1 15 r1 :=
  ⟨by decide, by decide, by decide,
    c4_context_before tdW1 "peace" 15 r1 (by decide) (by decide) (by decide)⟩

/-- The context-after window properties of one produced record (the
exclusion drops every segment whose start equals the start of
`next_segment`). -/
def afterWindowSpec (td : TranscriptDict) (w : ℚ) (r : MatchRecord) : Prop :=
  r.context_after.entries = td.transcript_data.filter
    (fun e => (decide (r.match_entry.start < e.start)
        && decide (e.start ≤ afterLimit r.match_entry.start w r.next_segment))
      && !(nsStartEq r.next_segment e)) ∧
  r.context_after.available_seconds =
    min (afterLimit r.match_entry.start w r.next_segment)
      (lastTimestamp td.transcript_data) - r.match_entry.start ∧
  (r.next_segment = none →
    afterLimit r.match_entry.start w none = r.match_entry.start + w) ∧
  (∀ ns : Segment, r.next_segment = some ns →
    afterLimit r.match_entry.start w (some ns) =
      max (r.match_entry.start + w) (ns.start + w))

/-- C5, amended: the context-after upper bound is `match_time + w`,
extended with `max` to `next_segment.start + w` for a cross-segment
match; the entries are exactly the segments with start in
`(match_time, upper]` excluding, when the match is cross-segment, every
segment whose start time equals `next_segment.start` (in particular the
`next_segment` itself); and `available_seconds` equals
`min(upper, last_segment.start) - match_time`. -/
theorem c5_context_after (td : TranscriptDict) (query : String) (w : ℚ)
    (r : MatchRecord) (hr : r ∈ td.get_query_usages_with_context query w) :
    afterWindowSpec td w r := by
  obtain ⟨m, hm, rfl⟩ := results_characterization td query w r hr
  unfold afterWindowSpec
  exact ⟨rfl, rfl, fun _ => rfl, fun ns _ => rfl⟩

/-- The record produced for `tdDup` and query `b c`. -/
def rDup : MatchRecord :=
  ⟨⟨0, "ab"⟩, true, some ⟨1, "cd"⟩, ⟨[], 0⟩, ⟨[], 1⟩⟩

unseal Rat.add Rat.sub Rat.mul Rat.inv in
theorem c5_context_after_witness :
    rDup ∈ tdDup.get_query_usages_with_context "b c" 15 ∧
    afterWindowSpec tdDup 15 rDup :=
  ⟨by decide, c5_context_after tdDup "b c" 15 rDup (by decide)⟩

unseal Rat.add Rat.sub Rat.mul Rat.inv in
/-- C5 as stated is false on the code: on the transcript of `tdDup`
(segments at 0, 1, 1, the last two sharing a start time), the single
cross-segment record for query `b c` has an empty context-after entry
list, while the claim (excluding only the `next_segment` itself from
the range `(0, 16]`) demands the segment `{1, "xx"}`. -/
theorem c5_counterexample :
    (tdDup.get_query_usages_with_context "b c" 15).length = 1 ∧
    ((tdDup.get_query_usages_with_context "b c" 15).headD default).match_entry.start
      = 0 ∧
    ((tdDup.get_query_usages_with_context "b c" 15).headD default).next_segment
      = some (Segment.mk 1 "cd") ∧
    afterLimit 0 15 (some (Segment.mk 1 "cd")) = 16 ∧
    ((tdDup.get_query_usages_with_context "b c" 15).headD default).context_after.entries
      = [] ∧
    tdDup.transcript_data.filter
      (fun e => (decide ((0 : ℚ) < e.start) && decide (e.start ≤ (16 : ℚ)))
        && !(e == Segment.mk 1 "cd")) = [Segment.mk 1 "xx"] ∧
    ((tdDup.get_query_usages_with_context "b c" 15).headD default).context_after.entries
      ≠ tdDup.transcript_data.filter
        (fun e => (decide ((0 : ℚ) < e.start) && decide (e.start ≤ (16 : ℚ)))
          && !(e == Segment.mk 1 "cd")) := by
  decide

theorem lastTimestamp_cons_cons (a b : Segment) (l : List Segment) :
    lastTimestamp (a :: b :: l) = lastTimestamp (b :: l) := by
  simp [lastTimestamp, List.getLast?_cons_cons]

theorem mem_le_lastTimestamp (data : List Segment) (hs : sortedByStart data) :
    ∀ x ∈ data, x.start ≤ lastTimestamp data := by
  induction data with
  | nil => intro x hx; simp at hx
  | cons a rest ih =>
    intro x hx
    have hpw := List.pairwise_cons.mp hs
    rcases List.mem_cons.mp hx with h | h
    · subst h
      cases rest with
      | nil => simp [lastTimestamp]
      | cons b rest2 =>
        rw [lastTimestamp_cons_cons]
        have hb := ih hpw.2 b (List.mem_cons_self b rest2)
        have hab := hpw.1 b (List.mem_cons_self b rest2)
        linarith
    · cases rest with
      | nil => simp at h
      | cons b rest2 =>
        rw [lastTimestamp_cons_cons]
        exact ih hpw.2 x h

/-- C10: when the segments are sorted by ascending start time and the
window is nonnegative, the context-after `available_seconds` of every
record produced by `get_query_usages_with_context` is nonnegative: the
last start time dominates the match start time, so
`min(after_limit, last_timestamp) - match_time ≥ 0`. -/
theorem c10_context_after_nonneg (td : TranscriptDict) (query : String)
    (w : ℚ) (r : MatchRecord) (hw : 0 ≤ w)
    (hs : sortedByStart td.transcript_data)
    (hr : r ∈ td.get_query_usages_with_context query w) :
    0 ≤ r.context_after.available_seconds := by
  obtain ⟨m, hm, rfl⟩ := results_characterization td query w r hr
  have hmem := findMatches_mem_data _ _ _ hm
  have hlast := mem_le_lastTimestamp td.transcript_data hs m.2 hmem
  have hlim : ∀ o : Option Segment, m.2.start ≤ afterLimit m.2.start w o := by
    intro o
    cases o with
    | none => show m.2.start ≤ m.2.start + w; linarith
    | some p =>
      show m.2.start ≤ max (m.2.start + w) (p.start + w)
      exact le_max_of_le_left (by linarith)
  show 0 ≤ min (afterLimit m.2.start w
      (((findMatches td.transcript_data query.strLower).find?
        (fun p => p.1 == m.1 + 1)).map Prod.snd))
      (lastTimestamp td.transcript_data) - m.2.start
  have hmin := le_min (hlim (((findMatches td.transcript_data query.strLower).find?
    (fun p => p.1 == m.1 + 1)).map Prod.snd)) hlast
  linarith

unseal Rat.add Rat.sub Rat.mul Rat.inv in
theorem c10_context_after_nonneg_witness :
    (0 : ℚ) ≤ 15 ∧ sortedByStart tdW1.transcript_data ∧
    0 ≤ r1.context_after.available_seconds :=
  ⟨by decide, by unfold sortedByStart; decide,
    c10_context_after_nonneg tdW1 "peace" 15 r1 (by decide)
      (by unfold sortedByStart; decide) (by decide)⟩

/-! ### The transcript slice -/

theorem foldl_render (p : Segment → Bool) :
    ∀ (l : List Segment) (acc : String),
      l.foldl (fun sec entry => if p entry then sec ++ renderEntry entry else sec) acc
        = acc ++ renderAll (l.filter p) := by
  intro l
  induction l with
  | nil => intro acc; simp [renderAll]
  | cons a rest ih =>
    intro acc
    rw [List.foldl_cons, List.filter_cons]
    by_cases hp : p a = true
    · rw [if_pos hp, if_pos hp, ih]
      simp only [renderAll]
      rw [String.append_assoc]
    · rw [if_neg hp, if_neg hp, ih]

theorem filter_le_front (e : ℚ) :
    ∀ (l : List Segment), sortedByStart l →
      l.filter (fun x => decide (x.start ≤ e)) <+: l := by
  intro l
  induction l with
  | nil => intro _; simp
  | cons a rest ih =>
    intro hs
    have hpw := List.pairwise_cons.mp hs
    rw [List.filter_cons]
    by_cases ha : decide (a.start ≤ e) = true
    · rw [if_pos ha]
      obtain ⟨t, ht⟩ := ih hpw.2
      exact ⟨t, by rw [List.cons_append, ht]⟩
    · rw [if_neg ha]
      have hae : ¬ a.start ≤ e := by simpa using ha
      have hnil : rest.filter (fun x => decide (x.start ≤ e)) = [] := by
        rw [List.filter_eq_nil_iff]
        intro x hx
        have hax := hpw.1 x hx
        simp only [decide_eq_true_eq]
        intro hxe
        exact hae (le_trans hax hxe)
      rw [hnil]
      exact List.nil_prefix

theorem filter_ge_rear (s : ℚ) :
    ∀ (l : List Segment), sortedByStart l →
      l.filter (fun x => decide (s ≤ x.start)) <:+ l := by
  intro l
  induction l with
  | nil => intro _; simp
  | cons a rest ih =>
    intro hs
    have hpw := List.pairwise_cons.mp hs
    rw [List.filter_cons]
    by_cases ha : decide (s ≤ a.start) = true
    · rw [if_pos ha]
      have has : s ≤ a.start := by simpa using ha
      have hall : rest.filter (fun x => decide (s ≤ x.start)) = rest := by
        rw [List.filter_eq_self]
        intro x hx
        have hax := hpw.1 x hx
        simp only [decide_eq_true_eq]
        linarith
      rw [hall]
    · rw [if_neg ha]
      obtain ⟨t, ht⟩ := ih hpw.2
      exact ⟨a :: t, by rw [List.cons_append, ht]⟩

theorem slice_isInfix (data : List Segment) (s e : ℚ)
    (hs : sortedByStart data) : sliceSegments data s e <:+: data := by
  by_cases he : e = 0
  · subst he
    have heq : sliceSegments data s 0
        = data.filter (fun x => decide (s ≤ x.start)) := by
      apply List.filter_congr
      intro x _
      simp [keepEntry]
    rw [heq]
    exact (filter_ge_rear s data hs).isInfix
  · have heq : sliceSegments data s e
        = (data.filter (fun x => decide (s ≤ x.start))).filter
            (fun x => decide (x.start ≤ e)) := by
      rw [List.filter_filter]
      apply List.filter_congr
      intro x _
      by_cases h1 : s ≤ x.start <;> by_cases h2 : x.start ≤ e <;>
        simp [keepEntry, he, h1, h2]
    rw [heq]
    have hsorted1 : sortedByStart (data.filter (fun x => decide (s ≤ x.start))) :=
      hs.sublist ((filter_ge_rear s data hs).sublist)
    exact ((filter_le_front e _ hsorted1).isInfix).trans
      (filter_ge_rear s data hs).isInfix

/-- The slice properties of `fetch_transcript`. -/
def sliceSpec (td : TranscriptDict) (title : String) (s e : ℚ) : Prop :=
  td.fetch_transcript title s e = renderAll (sliceSegments td.transcript_data s e) ∧
  (e = 0 → sliceSegments td.transcript_data s e
      = td.transcript_data.filter (fun x => decide (s ≤ x.start))) ∧
  (sortedByStart td.transcript_data →
    sliceSegments td.transcript_data s e <:+: td.transcript_data) ∧
  (0 < e → e < s → sliceSegments td.transcript_data s e = []) ∧
  ((∀ x ∈ td.transcript_data, x.start < s) →
    sliceSegments td.transcript_data s e = [])

/-- C6: on an available transcript, `fetch_transcript` renders, in
transcript order, exactly the segments with `start >= start_time` and
(`end_time == 0` or `start <= end_time`) (a pure filter); with
`end_time = 0` the slice keeps all segments with `start >= start_time`;
on a transcript sorted by start the slice is a contiguous sub-range; and
it is empty when `0 < end_time < start_time` or when `start_time`
exceeds every segment start. -/
theorem c6_slice_transcript (td : TranscriptDict) (title : String) (s e : ℚ)
    (h : td.has_transcript = true) : sliceSpec td title s e := by
  refine ⟨?_, ?_, slice_isInfix td.transcript_data s e, ?_, ?_⟩
  · unfold TranscriptDict.fetch_transcript
    rw [if_neg (by simp [h]), foldl_render]
    simp [sliceSegments]
  · intro he0
    subst he0
    apply List.filter_congr
    intro x _
    simp [keepEntry]
  · intro he hse
    rw [sliceSegments, List.filter_eq_nil_iff]
    intro x _
    simp only [keepEntry, Bool.and_eq_true, Bool.or_eq_true, decide_eq_true_eq]
    rintro ⟨hsx, he0 | hxe⟩
    · linarith
    · linarith
  · intro hall
    rw [sliceSegments, List.filter_eq_nil_iff]
    intro x hx
    simp only [keepEntry, Bool.and_eq_true, Bool.or_eq_true, decide_eq_true_eq]
    rintro ⟨hsx, _⟩
    exact absurd hsx (not_le.mpr (hall x hx))

theorem c6_slice_transcript_witness :
    tdW1.has_transcript = true ∧ sliceSpec tdW1 "T" 5 0 :=
  ⟨rfl, c6_slice_transcript tdW1 "T" 5 0 rfl⟩

/-! ### Record construction invariants -/

/-- The match list that `get_query_usages_with_context` builds for a
given query. -/
def matchesOf (td : TranscriptDict) (query : String) : List (ℕ × Segment) :=
  findMatches td.transcript_data query.strLower

/-- The deduplicated matches that actually produce a record. -/
def emittedOf (td : TranscriptDict) (query : String) : List (ℕ × Segment) :=
  emittedMatches (matchesOf td query) [] (matchesOf td query)

/-- The invariants of the record-building loop. -/
def recordLoopSpec (td : TranscriptDict) (query : String) (w : ℚ) : Prop :=
  td.get_query_usages_with_context query w =
    (emittedOf td query).map
      (fun m => mkRecord td.transcript_data (matchesOf td query) w m.1 m.2) ∧
  (∀ m ∈ emittedOf td query,
    ((mkRecord td.transcript_data (matchesOf td query) w m.1 m.2).is_cross_segment
        = true ↔ ∃ e2 : Segment, (m.1 + 1, e2) ∈ matchesOf td query) ∧
    (∀ ns : Segment,
      (mkRecord td.transcript_data (matchesOf td query) w m.1 m.2).next_segment
          = some ns →
        (m.1 + 1, ns) ∈ matchesOf td query ∧
        td.transcript_data.get? (m.1 + 1) = some ns) ∧
    ((mkRecord td.transcript_data (matchesOf td query) w m.1 m.2).is_cross_segment
        = true →
      ∀ e2 : Segment, (m.1 + 1, e2) ∉ emittedOf td query)) ∧
  List.Pairwise (fun a b : ℕ × Segment => a.1 < b.1) (emittedOf td query)

/-- C7: a record built at index `i` is flagged cross-segment exactly when
index `i + 1` occurs in the match list; in that case the transcript
segment at `i + 1` is stored as `next_segment` and its index is consumed,
so no separate record is emitted for it; and the emitted records follow
ascending transcript index order. -/
theorem c7_record_loop (td : TranscriptDict) (query : String) (w : ℚ)
    (h : td.has_transcript = true) : recordLoopSpec td query w := by
  have hpw := findMatches_pairwise_le td.transcript_data query.strLower
  refine ⟨?_, ?_, ?_⟩
  · simp only [TranscriptDict.get_query_usages_with_context, h]
    rw [if_neg (by simp)]
    exact buildRecords_eq_map td.transcript_data _ w _ []
  · intro m hm
    refine ⟨?_, ?_, ?_⟩
    · show ((matchesOf td query).find? (fun p => p.1 == m.1 + 1)).isSome = true ↔ _
      rw [List.find?_isSome]
      constructor
      · rintro ⟨x, hx, hpx⟩
        have hx1 : x.1 = m.1 + 1 := by simpa using hpx
        exact ⟨x.2, by rw [← hx1]; exact hx⟩
      · rintro ⟨e2, he2⟩
        exact ⟨(m.1 + 1, e2), he2, by simp⟩
    · intro ns hns
      have hns2 : ((matchesOf td query).find? (fun p => p.1 == m.1 + 1)).map
          Prod.snd = some ns := hns
      cases hfind : (matchesOf td query).find? (fun p => p.1 == m.1 + 1) with
      | none => rw [hfind] at hns2; simp at hns2
      | some pa =>
        rw [hfind] at hns2
        have hpa2 : pa.2 = ns := by simpa using hns2
        have hpa1 : pa.1 = m.1 + 1 := by
          have := List.find?_some hfind
          simpa using this
        have hpamem := List.mem_of_find?_eq_some hfind
        constructor
        · rw [← hpa1, ← hpa2]
          exact hpamem
        · rw [← hpa1, ← hpa2]
          exact findMatches_get? td.transcript_data query.strLower pa hpamem
    · intro hcross e2
      exact emittedMatches_consumed (matchesOf td query) (matchesOf td query) []
        m.1 m.2 e2 hpw hm hcross
  · exact emittedMatches_pairwise (matchesOf td query) (matchesOf td query) [] hpw

unseal Rat.add Rat.sub Rat.mul Rat.inv in
theorem c7_record_loop_witness :
    tdW2.has_transcript = true ∧ recordLoopSpec tdW2 "de fg" 15 :=
  ⟨rfl, c7_record_loop tdW2 "de fg" 15 rfl⟩

/-! ### Timestamp formatting -/

theorem pyFloorDiv_natCast (n k : ℕ) :
    pyFloorDiv (n : ℚ) (k : ℚ) = ((n / k : ℕ) : ℚ) := by
  unfold pyFloorDiv
  have h1 : ((n : ℚ)) = ((n : ℤ) : ℚ) := by push_cast; ring
  rw [h1, Rat.floor_intCast_div_natCast, ← Int.natCast_div]
  norm_cast

theorem pyInt_natCast (m : ℕ) : pyInt ((m : ℕ) : ℚ) = (m : ℤ) := by
  unfold pyInt
  rw [if_pos (by positivity)]
  exact_mod_cast Int.floor_natCast m

theorem pyMod_natCast (n k : ℕ) :
    pyMod (n : ℚ) (k : ℚ) = ((n % k : ℕ) : ℚ) := by
  unfold pyMod
  have hfl : ⌊(n : ℚ) / (k : ℚ)⌋ = ((n / k : ℕ) : ℤ) := by
    have h1 : ((n : ℚ)) = ((n : ℤ) : ℚ) := by push_cast; ring
    rw [h1, Rat.floor_intCast_div_natCast, ← Int.natCast_div]
  rw [hfl]
  have hq : (k : ℚ) * ((n / k : ℕ) : ℚ) + ((n % k : ℕ) : ℚ) = (n : ℚ) := by
    exact_mod_cast congrArg (Nat.cast : ℕ → ℚ) (Nat.div_add_mod n k)
  rw [Int.cast_natCast]
  linarith

theorem pad2_two_digits : ∀ m : ℕ, m < 100 → (pad2 ((m : ℕ) : ℤ)).length = 2 := by
  decide

/-- C9: `format_timestamp` renders an integer number of seconds as
`MM:SS` under one hour and as `HH:MM:SS` from one hour on, with the
minute and second fields always exactly two digits (zero-padded) and the
hour field two digits below one hundred hours. -/
theorem c9_format_timestamp (n : ℕ) :
    (n < 3600 →
      format_timestamp (n : ℚ) =
        pad2 ((n / 60 : ℕ) : ℤ) ++ ":" ++ pad2 ((n % 60 : ℕ) : ℤ)) ∧
    (3600 ≤ n →
      format_timestamp (n : ℚ) =
        pad2 ((n / 3600 : ℕ) : ℤ) ++ ":" ++ pad2 ((n % 3600 / 60 : ℕ) : ℤ)
          ++ ":" ++ pad2 ((n % 60 : ℕ) : ℤ)) ∧
    (pad2 ((n % 3600 / 60 : ℕ) : ℤ)).length = 2 ∧
    (pad2 ((n % 60 : ℕ) : ℤ)).length = 2 ∧
    (n < 3600 → (pad2 ((n / 60 : ℕ) : ℤ)).length = 2) ∧
    (3600 ≤ n → n < 360000 → (pad2 ((n / 3600 : ℕ) : ℤ)).length = 2) := by
  have hc3600 : ((3600 : ℚ)) = ((3600 : ℕ) : ℚ) := by norm_num
  have hc60 : ((60 : ℚ)) = ((60 : ℕ) : ℚ) := by norm_num
  have e1 : pyInt (pyFloorDiv (n : ℚ) 3600) = ((n / 3600 : ℕ) : ℤ) := by
    rw [hc3600, pyFloorDiv_natCast, pyInt_natCast]
  have em : pyMod (n : ℚ) 3600 = ((n % 3600 : ℕ) : ℚ) := by
    rw [hc3600, pyMod_natCast]
  have e2 : pyInt (pyFloorDiv (pyMod (n : ℚ) 3600) 60) =
      ((n % 3600 / 60 : ℕ) : ℤ) := by
    rw [em, hc60, pyFloorDiv_natCast, pyInt_natCast]
  have e3 : pyInt (pyMod (n : ℚ) 60) = ((n % 60 : ℕ) : ℤ) := by
    rw [hc60, pyMod_natCast, pyInt_natCast]
  have hfmt : format_timestamp (n : ℚ) =
      if 0 < ((n / 3600 : ℕ) : ℤ) then
        pad2 ((n / 3600 : ℕ) : ℤ) ++ ":" ++ pad2 ((n % 3600 / 60 : ℕ) : ℤ)
          ++ ":" ++ pad2 ((n % 60 : ℕ) : ℤ)
      else
        pad2 ((n % 3600 / 60 : ℕ) : ℤ) ++ ":" ++ pad2 ((n % 60 : ℕ) : ℤ) := by
    simp only [format_timestamp]
    rw [e1, e2, e3]
  refine ⟨?_, ?_, ?_, ?_, ?_, ?_⟩
  · intro hlt
    have hdiv0 : n / 3600 = 0 := Nat.div_eq_of_lt hlt
    have hmod : n % 3600 = n := Nat.mod_eq_of_lt hlt
    rw [hfmt, hdiv0, hmod]
    simp
  · intro hge
    have hpos : 0 < n / 3600 := Nat.div_pos hge (by norm_num)
    rw [hfmt, if_pos (by exact_mod_cast hpos)]
  · have h1 : n % 3600 / 60 < 100 := by
      have h2 : n % 3600 < 3600 := Nat.mod_lt n (by norm_num)
      have := Nat.div_lt_of_lt_mul (by omega : n % 3600 < 60 * 60)
      omega
    exact pad2_two_digits _ h1
  · have h1 : n % 60 < 100 := by
      have := Nat.mod_lt n (y := 60) (by norm_num)
      omega
    exact pad2_two_digits _ h1
  · intro hlt
    have h1 : n / 60 < 100 := by
      have := Nat.div_lt_of_lt_mul (by omega : n < 60 * 60)
      omega
    exact pad2_two_digits _ h1
  · intro hge hlt
    have h1 : n / 3600 < 100 := by
      have := Nat.div_lt_of_lt_mul (by omega : n < 3600 * 100)
      omega
    exact pad2_two_digits _ h1

unseal Rat.add Rat.sub Rat.mul Rat.inv in
theorem c9_format_timestamp_witness :
    (65 < 3600 ∧
      format_timestamp ((65 : ℕ) : ℚ) =
        pad2 ((65 / 60 : ℕ) : ℤ) ++ ":" ++ pad2 ((65 % 60 : ℕ) : ℤ)) ∧
    (3600 ≤ 3725 ∧
      format_timestamp ((3725 : ℕ) : ℚ) =
        pad2 ((3725 / 3600 : ℕ) : ℤ) ++ ":" ++ pad2 ((3725 % 3600 / 60 : ℕ) : ℤ)
          ++ ":" ++ pad2 ((3725 % 60 : ℕ) : ℤ)) :=
  ⟨⟨by decide, (c9_format_timestamp 65).1 (by decide)⟩,
   ⟨by decide, (c9_format_timestamp 3725).2.1 (by decide)⟩⟩

/-! ### Error propagation at the tool boundary -/

/-- C8 fails on the code: for the well-formed watch URL
`https://www.youtube.com/watch?list=abc` (a query string without a `v`
parameter), `parse_video_id` raises `KeyError`, and the error escapes
all four tools instead of being converted to a text response — in
`search_transcript` the `get_video_title` call sits before the `try`
block, `get_video_information` has no `try` around it at all, and the
`except` handlers of `get_full_transcript` and `get_transcript_section`
call `get_video_title` again and re-raise. -/
theorem c8_resolution_error_escapes :
    parse_video_id "https://www.youtube.com/watch?list=abc"
      = Except.error "KeyError: v" ∧
    search_transcript (some "Title") (some [⟨0, "hi"⟩])
        "https://www.youtube.com/watch?list=abc" "q" 15
      = Except.error "KeyError: v" ∧
    get_video_information (some "Title") (some ["English"])
        "https://www.youtube.com/watch?list=abc"
      = Except.error "KeyError: v" ∧
    get_full_transcript (some "Title") (some [⟨0, "hi"⟩])
        "https://www.youtube.com/watch?list=abc"
      = Except.error "KeyError: v" ∧
    get_transcript_section (some "Title") (some [⟨0, "hi"⟩])
        "https://www.youtube.com/watch?list=abc" 0 0
      = Except.error "KeyError: v" := by
  decide
